import Mathlib

/-!
Verification development for the datastore repository.

The embedding models `src/app/cache.py` (the TTL store and the `Cache`
wrapper), the task handlers of `src/app/main.py`, and the chunked upload
loop of `src/app/utils.py`.

Modelling conventions:
* Wall-clock instants are integers, mirroring `int(time())` in the source.
* The Python `dict` (insertion ordered, unique keys) behind
  `TTLCache._data` is an association list; `alookup`, `aset` and `aerase`
  all act on the first matching key, which coincides with `dict`
  behaviour because a `dict` never holds a duplicated key.
* A `TimeValue` record (parallel `value`/`time` lists) is a single list of
  `(value, expiry)` pairs in append order.
* Exceptions become `Except` results paired with the state at the point
  the exception escapes, so an error case visibly leaves the state it
  propagates from.
-/

/-- Expiry instant of one stored value: a finite absolute timestamp, or
`inf` for entries stored without a TTL (`math.inf` in the source). -/
inductive Expiry where
  | fin (t : Int)
  | inf
deriving DecidableEq, Repr

/-- A value is live when its expiry lies strictly in the future,
mirroring the `t > current_time` test in `TTLCache.__getitem__`. -/
def Expiry.live (e : Expiry) (now : Int) : Bool :=
  match e with
  | .fin t => now < t
  | .inf => true

/-- Error taxonomy of the store layer: `KeyError` surfaces as `notFound`
and the `ValueError` raised for a non-positive TTL as `invalidTTL`. -/
inductive Err where
  | notFound
  | invalidTTL
deriving DecidableEq, Repr

/-- First-match lookup in an association list, the model of `dict`
subscripting (keys are unique in every reachable state). -/
def alookup {K β : Type} [DecidableEq K] (k : K) : List (K × β) → Option β
  | [] => none
  | p :: l => if p.1 = k then some p.2 else alookup k l

/-- `dict` assignment: replace the first binding of `k` in place, or
append a fresh binding at the end (insertion order of keys). -/
def aset {K β : Type} [DecidableEq K] (k : K) (b : β) : List (K × β) → List (K × β)
  | [] => [(k, b)]
  | p :: l => if p.1 = k then (k, b) :: l else p :: aset k b l

/-- `dict` deletion: drop the first binding of `k`. -/
def aerase {K β : Type} [DecidableEq K] (k : K) : List (K × β) → List (K × β)
  | [] => []
  | p :: l => if p.1 = k then l else p :: aerase k l

/-- State of `TTLCache`: the backing map from keys to their append-order
value history, and the `size` counter. -/
structure TTLCache (K V : Type) where
  data : List (K × List (V × Expiry))
  size : Int
deriving DecidableEq, Repr

/-- The backing map of any reachable `TTLCache` has unique keys, as a
Python `dict` does. -/
def TTLCache.WellFormed {K V : Type} (c : TTLCache K V) : Prop :=
  (c.data.map Prod.fst).Nodup

/-- `TTLCache.__init__`: empty map, zero size. -/
def TTLCache.init {K V : Type} : TTLCache K V := ⟨[], 0⟩

/-- `TTLCache.__getitem__` (cache.py lines 29-42): sweep the values under
`k`, keeping the live ones in order and decrementing `size` once per
expired value; if live values remain, store them back and return them,
otherwise delete the backing record and return `None`.  (`_data` is a
`defaultdict`, so an absent key behaves as an empty record and is not
materialised: creating and immediately deleting it leaves the map
unchanged.) -/
def TTLCache.getitem {K V : Type} [DecidableEq K]
    (c : TTLCache K V) (k : K) (now : Int) :
    Option (List V) × TTLCache K V :=
  let values := (alookup k c.data).getD []
  let newValues := values.filter (fun p => p.2.live now)
  let expired := values.countP (fun p => !(p.2.live now))
  if newValues.isEmpty then
    (none, ⟨aerase k c.data, c.size - expired⟩)
  else
    (some (newValues.map Prod.fst), ⟨aset k newValues c.data, c.size - expired⟩)

/-- `TTLCache.__setitem__` (cache.py lines 44-51): with a `(value, ttl)`
tuple, reject `ttl <= 0` before touching the map, otherwise append
`(value, ttl + now)` to the key record; without a ttl, append with an
infinite expiry.  Either successful branch increments `size`. -/
def TTLCache.setitem {K V : Type} [DecidableEq K]
    (c : TTLCache K V) (k : K) (v : V) (ttl : Option Int) (now : Int) :
    Except Err Unit × TTLCache K V :=
  match ttl with
  | some t =>
    if t ≤ 0 then
      (.error .invalidTTL, c)
    else
      (.ok (), ⟨aset k ((alookup k c.data).getD [] ++ [(v, .fin (t + now))]) c.data,
                c.size + 1⟩)
  | none =>
    (.ok (), ⟨aset k ((alookup k c.data).getD [] ++ [(v, .inf)]) c.data,
              c.size + 1⟩)

/-- `TTLCache.__delitem__` (cache.py lines 53-54): raw `dict` deletion;
raises `KeyError` when `k` is absent and never touches `size`. -/
def TTLCache.delitem {K V : Type} [DecidableEq K]
    (c : TTLCache K V) (k : K) : Except Err Unit × TTLCache K V :=
  if (alookup k c.data).isSome then
    (.ok (), ⟨aerase k c.data, c.size⟩)
  else
    (.error .notFound, c)

/-- `TTLCache.flush` (cache.py lines 56-58): fresh map, size zero. -/
def TTLCache.flush {K V : Type} (_c : TTLCache K V) : TTLCache K V := ⟨[], 0⟩

/-- `TTLCache.__iter__` (cache.py lines 73-75): the keys of the backing
map in insertion order, with no expiry check at all. -/
def TTLCache.iterKeys {K V : Type} (c : TTLCache K V) : List K :=
  c.data.map Prod.fst

/-- Helper for `items`: walk the key list, pairing each key with the
result of `self[key]` on the store as mutated by the earlier reads.  A
read that returns a non-`None` list only reassigns the existing dict
slot, which CPython permits mid-iteration, so the walk continues; a read
that returns `None` has deleted its key from the dict, so the pair is
still yielded but the dict iterator raises `RuntimeError` (dictionary
changed size during iteration) on the very next step: the walk stops
there and the final `Bool` records that the generator ended by raising
instead of finishing normally. -/
def TTLCache.itemsGo {K V : Type} [DecidableEq K]
    (now : Int) (c : TTLCache K V) :
    List K → List (K × Option (List V)) × TTLCache K V × Bool
  | [] => ([], c, false)
  | k :: ks =>
    match c.getitem k now with
    | (some vs, c') =>
      let rest := TTLCache.itemsGo now c' ks
      ((k, some vs) :: rest.1, rest.2)
    | (none, c') => ([(k, none)], c', true)

/-- `TTLCache.items` (cache.py lines 77-79): pair the keys produced by
`__iter__` with the result of `self[key]`, the read mutating the store
as it goes.  The pair for the first fully-expired key is yielded (its
read runs, deleting the key, before the `yield`), after which iteration
raises `RuntimeError`, so no later pairs are produced; the `Bool` of the
result is true exactly when iteration ended with that error. -/
def TTLCache.items {K V : Type} [DecidableEq K]
    (c : TTLCache K V) (now : Int) :
    List (K × Option (List V)) × TTLCache K V × Bool :=
  TTLCache.itemsGo now c c.iterKeys

/-- The configured TTL of the `Cache` wrapper (cache.py line 89):
`int(os.getenv("MEMCACHED_TTL", default=0)) or 360`. -/
def Cache.mkTtl (env : Int) : Int :=
  if env = 0 then 360 else env

/-- `Cache.__getitem__` (cache.py lines 92-97): run the TTL sweep and, if
a non-empty live list came back, return its first element — the oldest
live value; otherwise raise `KeyError`. -/
def Cache.get {K V : Type} [DecidableEq K]
    (c : TTLCache K V) (k : K) (now : Int) : Except Err V × TTLCache K V :=
  match TTLCache.getitem c k now with
  | (some (v :: _), c') => (.ok v, c')
  | (some [], c') => (.error .notFound, c')
  | (none, c') => (.error .notFound, c')

/-- `Cache.__setitem__` (cache.py lines 99-100): store under the
configured finite TTL. -/
def Cache.set {K V : Type} [DecidableEq K]
    (ttl : Int) (c : TTLCache K V) (k : K) (v : V) (now : Int) :
    Except Err Unit × TTLCache K V :=
  TTLCache.setitem c k v (some ttl) now

/-- `Cache.__delitem__` (cache.py lines 102-107): read (and thereby
sweep) the key; if a live value list came back, delete the backing
record, otherwise raise `KeyError`. -/
def Cache.delete {K V : Type} [DecidableEq K]
    (c : TTLCache K V) (k : K) (now : Int) : Except Err Unit × TTLCache K V :=
  match TTLCache.getitem c k now with
  | (some (_ :: _), c') => TTLCache.delitem c' k
  | (some [], c') => (.error .notFound, c')
  | (none, c') => (.error .notFound, c')

/-- Task control state stored in the registry: `is_assigned` and
`is_paused` flags (main.py line 80). -/
structure TaskState where
  is_assigned : Bool
  is_paused : Bool
deriving DecidableEq, Repr

/-- State of the task layer.  The Python handlers read the stored dict,
mutate it in place and store the same object back, so every history
entry under a task key aliases one shared dict.  The model makes the
aliasing explicit: the cache stores heap addresses (`Nat`) and `heap`
holds the actual `TaskState` records; an in-place mutation is an update
of `heap` at the stored address. -/
structure Sys (K : Type) where
  cache : TTLCache K Nat
  heap : List TaskState
deriving Repr

/-- `create_task` (main.py lines 76-81): allocate a fresh state dict
`\x7bis_assigned: False, is_paused: False\x7d` and store its address under
the task id; `none` models the `ValueError` escaping when the configured
TTL is non-positive. -/
def create_task {K : Type} [DecidableEq K]
    (ttl : Int) (sys : Sys K) (tid : K) (now : Int) : Option (Sys K) :=
  let a := sys.heap.length
  match Cache.set ttl sys.cache tid a now with
  | (.ok _, c') => some ⟨c', sys.heap ++ [⟨false, false⟩]⟩
  | (.error _, _) => none

/-- `pause_task` (main.py lines 92-111): 404 when the registry read
raises `KeyError`; 409 when the state is already paused; otherwise flip
`is_paused` in place, store the same address back and answer 200 (500
models the unreachable `ValueError` of a non-positive configured TTL). -/
def pause_task {K : Type} [DecidableEq K]
    (ttl : Int) (sys : Sys K) (tid : K) (now : Int) : Nat × Sys K :=
  match Cache.get sys.cache tid now with
  | (.error _, c') => (404, ⟨c', sys.heap⟩)
  | (.ok a, c') =>
    let s := sys.heap.getD a ⟨false, false⟩
    if s.is_paused then
      (409, ⟨c', sys.heap⟩)
    else
      let heap' := sys.heap.set a ⟨s.is_assigned, true⟩
      match Cache.set ttl c' tid a now with
      | (.ok _, c'') => (200, ⟨c'', heap'⟩)
      | (.error _, c'') => (500, ⟨c'', heap'⟩)

/-- `resume_task` (main.py lines 122-141): symmetric to `pause_task`;
409 when the state is not paused. -/
def resume_task {K : Type} [DecidableEq K]
    (ttl : Int) (sys : Sys K) (tid : K) (now : Int) : Nat × Sys K :=
  match Cache.get sys.cache tid now with
  | (.error _, c') => (404, ⟨c', sys.heap⟩)
  | (.ok a, c') =>
    let s := sys.heap.getD a ⟨false, false⟩
    if s.is_paused then
      let heap' := sys.heap.set a ⟨s.is_assigned, false⟩
      match Cache.set ttl c' tid a now with
      | (.ok _, c'') => (200, ⟨c'', heap'⟩)
      | (.error _, c'') => (500, ⟨c'', heap'⟩)
    else
      (409, ⟨c', sys.heap⟩)

/-- Shared prologue of `upload_file` (main.py lines 180-194),
`download_file` (lines 240-255) and `delete_file` (lines 309-324): 404
when the registry read raises `KeyError`; 409 without touching any task
state when the task is already assigned; otherwise set `is_assigned` in
place and store the address back before any filesystem work starts.
The third component records whether the handler went on to start its
transfer. -/
def transfer_request {K : Type} [DecidableEq K]
    (ttl : Int) (sys : Sys K) (tid : K) (now : Int) : Nat × Sys K × Bool :=
  match Cache.get sys.cache tid now with
  | (.error _, c') => (404, ⟨c', sys.heap⟩, false)
  | (.ok a, c') =>
    let s := sys.heap.getD a ⟨false, false⟩
    if s.is_assigned then
      (409, ⟨c', sys.heap⟩, false)
    else
      let heap' := sys.heap.set a ⟨true, s.is_paused⟩
      match Cache.set ttl c' tid a now with
      | (.ok _, c'') => (200, ⟨c'', heap'⟩, true)
      | (.error _, c'') => (500, ⟨c'', heap'⟩, false)

/-- What one registry poll at a chunk boundary observed: the read raised
`KeyError` (task gone), returned a paused state, or returned a running
state.  The sequence of poll results abstracts the concurrent control
surface and the wall clock, which the loop itself does not control. -/
inductive Poll where
  | gone
  | pausedNow
  | runningNow
deriving DecidableEq, Repr

/-- How the transfer loop ended: the poll saw the registry entry gone
(abort), the inbound stream yielded an empty chunk (completed), or the
modelled poll trace ran out while the loop was still going. -/
inductive LoopExit where
  | aborted
  | completed
  | fuelOut
deriving DecidableEq, Repr

/-- `file_downloader` (utils.py lines 79-93): per iteration, poll the
registry — on `KeyError` break with nothing else done; when paused,
sleep and re-loop without consuming input; otherwise read one chunk —
write it to the destination when non-empty, break as completed when
empty.  `written` is the destination file content so far, the returned
list the unconsumed input. -/
def file_downloader (polls : List Poll) (input : List (List Nat))
    (written : List (List Nat)) :
    List (List Nat) × List (List Nat) × LoopExit :=
  match polls with
  | [] => (written, input, .fuelOut)
  | .gone :: _ => (written, input, .aborted)
  | .pausedNow :: ps => file_downloader ps input written
  | .runningNow :: ps =>
    match input with
    | [] => (written, [], .completed)
    | chunk :: rest =>
      if chunk.isEmpty then (written, rest, .completed)
      else file_downloader ps rest (written ++ [chunk])

/-- Epilogue of `upload_file` (main.py lines 201-211): after the loop
returns, `del cache[task_id]`; on success answer 200, on `KeyError`
unlink the destination file and answer 404.  Returns the store, whether
the destination file was deleted, and the status code. -/
def upload_epilogue {K : Type} [DecidableEq K]
    (c : TTLCache K Nat) (tid : K) (now : Int) : TTLCache K Nat × Bool × Nat :=
  match Cache.delete c tid now with
  | (.ok _, c') => (c', false, 200)
  | (.error _, c') => (c', true, 404)

/-- One store operation of the §4.1 interface, with the instant at which
it runs. -/
inductive Op (K V : Type) where
  | flushOp
  | setOp (k : K) (v : V) (ttl : Option Int) (now : Int)
  | getOp (k : K) (now : Int)
  | deleteOp (k : K) (now : Int)

/-- Run one operation; the second component counts the pairs that a
successful `delete` removed from the map (its live values after the
sweep), which `TTLCache.__delitem__` removes without touching `size`. -/
def Op.step {K V : Type} [DecidableEq K]
    (c : TTLCache K V) : Op K V → TTLCache K V × Nat
  | .flushOp => (c.flush, 0)
  | .setOp k v ttl now => ((TTLCache.setitem c k v ttl now).2, 0)
  | .getOp k now => ((TTLCache.getitem c k now).2, 0)
  | .deleteOp k now =>
    ((Cache.delete c k now).2,
     ((alookup k c.data).getD []).countP (fun p => p.2.live now))

/-- Run a list of operations, accumulating the count of pairs removed by
`delete` since the last `flush`. -/
def runOps {K V : Type} [DecidableEq K]
    (c : TTLCache K V) (acc : Nat) : List (Op K V) → TTLCache K V × Nat
  | [] => (c, acc)
  | .flushOp :: ops => runOps c.flush 0 ops
  | op :: ops => runOps (op.step c).1 (acc + (op.step c).2) ops

/-- Number of pairs physically present in the backing map, expired or
not. -/
def TTLCache.storedCount {K V : Type} (c : TTLCache K V) : Nat :=
  (c.data.map (fun p => p.2.length)).sum

/-- Number of live pairs across all keys at instant `now` — the quantity
the specification says `size` tracks. -/
def TTLCache.liveCount {K V : Type} (c : TTLCache K V) (now : Int) : Nat :=
  (c.data.map (fun p => p.2.countP (fun q => q.2.live now))).sum

theorem alookup_aset_self {K β : Type} [DecidableEq K] (k : K) (b : β) :
    ∀ l : List (K × β), alookup k (aset k b l) = some b := by
  intro l
  induction l with
  | nil => simp [aset, alookup]
  | cons p l ih =>
    by_cases h : p.1 = k
    · simp [aset, alookup, h]
    · simp [aset, alookup, h, ih]

theorem alookup_aset_ne {K β : Type} [DecidableEq K] {k k' : K} (b : β)
    (h : k' ≠ k) : ∀ l : List (K × β), alookup k (aset k' b l) = alookup k l := by
  intro l
  induction l with
  | nil => simp [aset, alookup, h]
  | cons p l ih =>
    by_cases hp : p.1 = k'
    · simp [aset, alookup, hp, h]
    · simp [aset, alookup, hp, ih]

theorem alookup_aerase_ne {K β : Type} [DecidableEq K] {k k' : K}
    (h : k' ≠ k) : ∀ l : List (K × β), alookup k (aerase k' l) = alookup k l := by
  intro l
  induction l with
  | nil => simp [aerase]
  | cons p l ih =>
    by_cases hp : p.1 = k'
    · simp [aerase, alookup, hp, h]
    · simp [aerase, alookup, hp, ih]

theorem alookup_none_of_not_mem {K β : Type} [DecidableEq K] {k : K} :
    ∀ {l : List (K × β)}, k ∉ l.map Prod.fst → alookup k l = none := by
  intro l
  induction l with
  | nil => intro _; simp [alookup]
  | cons p l ih =>
    intro h
    simp only [List.map_cons, List.mem_cons] at h
    push_neg at h
    have hp : ¬ p.1 = k := fun hc => h.1 hc.symm
    simp [alookup, hp, ih h.2]

theorem mem_keys_of_alookup_some {K β : Type} [DecidableEq K] {k : K} {b : β} :
    ∀ {l : List (K × β)}, alookup k l = some b → k ∈ l.map Prod.fst := by
  intro l
  induction l with
  | nil => intro h; simp [alookup] at h
  | cons p l ih =>
    intro h
    by_cases hp : p.1 = k
    · simp [hp]
    · simp only [alookup, hp, if_false] at h
      simp [ih h]

theorem alookup_aerase_self {K β : Type} [DecidableEq K] {k : K} :
    ∀ {l : List (K × β)}, (l.map Prod.fst).Nodup →
      alookup k (aerase k l) = none := by
  intro l
  induction l with
  | nil => intro _; simp [aerase, alookup]
  | cons p l ih =>
    intro hnd
    simp only [List.map_cons, List.nodup_cons] at hnd
    by_cases hp : p.1 = k
    · simp only [aerase, hp, if_true]
      exact alookup_none_of_not_mem (hp ▸ hnd.1)
    · simp [aerase, alookup, hp, ih hnd.2]

theorem aset_of_alookup_none {K β : Type} [DecidableEq K] {k : K} (b : β) :
    ∀ {l : List (K × β)}, alookup k l = none → aset k b l = l ++ [(k, b)] := by
  intro l
  induction l with
  | nil => intro _; simp [aset]
  | cons p l ih =>
    intro h
    by_cases hp : p.1 = k
    · simp [alookup, hp] at h
    · simp only [alookup, hp, if_false] at h
      simp [aset, hp, ih h]

theorem aerase_of_alookup_none {K β : Type} [DecidableEq K] {k : K} :
    ∀ {l : List (K × β)}, alookup k l = none → aerase k l = l := by
  intro l
  induction l with
  | nil => intro _; simp [aerase]
  | cons p l ih =>
    intro h
    by_cases hp : p.1 = k
    · simp [alookup, hp] at h
    · simp only [alookup, hp, if_false] at h
      simp [aerase, hp, ih h]

theorem keys_aset_of_some {K β : Type} [DecidableEq K] {k : K} (b : β) :
    ∀ {l : List (K × β)}, (alookup k l).isSome →
      (aset k b l).map Prod.fst = l.map Prod.fst := by
  intro l
  induction l with
  | nil => intro h; simp [alookup] at h
  | cons p l ih =>
    intro h
    by_cases hp : p.1 = k
    · simp [aset, hp]
    · simp only [alookup, hp, if_false] at h
      simp [aset, hp, ih h]

theorem countP_add_countP_not {α : Type} (p : α → Bool) :
    ∀ l : List α, l.countP p + l.countP (fun a => !(p a)) = l.length
  | [] => rfl
  | a :: l => by
    have ih := countP_add_countP_not p l
    by_cases h : p a
    · rw [List.countP_cons_of_pos _ _ h, List.countP_cons_of_neg, List.length_cons]
      · omega
      · simp [h]
    · rw [List.countP_cons_of_neg _ _ h, List.countP_cons_of_pos, List.length_cons]
      · omega
      · simp [h]

theorem sum_lens_aset_some {K α : Type} [DecidableEq K] {k : K} {r₀ : List α}
    (r : List α) :
    ∀ {l : List (K × List α)}, alookup k l = some r₀ →
      ((aset k r l).map (fun p => p.2.length)).sum + r₀.length =
        (l.map (fun p => p.2.length)).sum + r.length := by
  intro l
  induction l with
  | nil => intro h; simp [alookup] at h
  | cons p l ih =>
    intro h
    by_cases hp : p.1 = k
    · simp only [alookup, hp, if_true, Option.some.injEq] at h
      simp [aset, hp, h]
      omega
    · simp only [alookup, hp, if_false] at h
      simp only [aset, hp, if_false, List.map_cons, List.sum_cons]
      have := ih h
      omega

theorem sum_lens_aerase_some {K α : Type} [DecidableEq K] {k : K} {r₀ : List α} :
    ∀ {l : List (K × List α)}, alookup k l = some r₀ →
      ((aerase k l).map (fun p => p.2.length)).sum + r₀.length =
        (l.map (fun p => p.2.length)).sum := by
  intro l
  induction l with
  | nil => intro h; simp [alookup] at h
  | cons p l ih =>
    intro h
    by_cases hp : p.1 = k
    · simp only [alookup, hp, if_true, Option.some.injEq] at h
      simp [aerase, hp, h]
      omega
    · simp only [alookup, hp, if_false] at h
      simp only [aerase, hp, if_false, List.map_cons, List.sum_cons]
      have := ih h
      omega

theorem getD_append_length {α : Type} (x d : α) :
    ∀ l : List α, (l ++ [x]).getD l.length d = x := by
  intro l
  induction l with
  | nil => rfl
  | cons a l ih => simpa using ih

theorem set_append_length {α : Type} (x y : α) :
    ∀ l : List α, (l ++ [x]).set l.length y = l ++ [y] := by
  intro l
  induction l with
  | nil => rfl
  | cons a l ih => simp [List.set, ih]

theorem getitem_alookup_other {K V : Type} [DecidableEq K] {k k' : K}
    (c : TTLCache K V) (now : Int) (h : k' ≠ k) :
    alookup k ((c.getitem k' now).2).data = alookup k c.data := by
  unfold TTLCache.getitem
  by_cases he :
      (((alookup k' c.data).getD []).filter (fun p => p.2.live now)).isEmpty
  · simp [he, alookup_aerase_ne h]
  · simp [he, alookup_aset_ne _ h]

/-- Claim C4: for every key, value and ttl ≤ 0, set(key, value, ttl)
fails with InvalidTTL and leaves the store completely unchanged — no
entry added under the key, size counter untouched. -/
theorem setitem_nonpositive_ttl_rejected {K V : Type} [DecidableEq K]
    (c : TTLCache K V) (k : K) (v : V) (ttl now : Int) (h : ttl ≤ 0) :
    TTLCache.setitem c k v (some ttl) now = (.error .invalidTTL, c) := by
  simp [TTLCache.setitem, h]

/-- Witness for C4 at a concrete input: ttl 0 and ttl -3 are both
rejected on a concrete one-entry store, which is returned unchanged. -/
theorem setitem_nonpositive_ttl_rejected_witness :
    ((0 : Int) ≤ 0 ∧
      TTLCache.setitem (TTLCache.init : TTLCache Nat Nat) 0 7 (some 0) 5 =
        (.error .invalidTTL, TTLCache.init)) ∧
    ((-3 : Int) ≤ 0 ∧
      TTLCache.setitem (TTLCache.init : TTLCache Nat Nat) 1 8 (some (-3)) 2 =
        (.error .invalidTTL, TTLCache.init)) :=
  ⟨⟨by decide, setitem_nonpositive_ttl_rejected _ _ _ _ _ (by decide)⟩,
   ⟨by decide, setitem_nonpositive_ttl_rejected _ _ _ _ _ (by decide)⟩⟩

/-- Claim C10: every write through the Cache layer succeeds for a
positive configured TTL and appends the value with the finite expiry
`ttl + now` as the newest version of the key — each update stores a
fresh expiry rather than preserving the original one — incrementing the
size counter. -/
theorem cache_set_fresh_expiry {K V : Type} [DecidableEq K]
    (ttl : Int) (c : TTLCache K V) (k : K) (v : V) (now : Int) (h : 0 < ttl) :
    (Cache.set ttl c k v now).1 = .ok () ∧
    alookup k ((Cache.set ttl c k v now).2).data =
      some ((alookup k c.data).getD [] ++ [(v, Expiry.fin (ttl + now))]) ∧
    ((Cache.set ttl c k v now).2).size = c.size + 1 := by
  have h' : ¬ ttl ≤ 0 := not_le.mpr h
  unfold Cache.set TTLCache.setitem
  simp [h', alookup_aset_self]

/-- Witness for C10 at the default configuration: the TTL computed from
an unset environment variable is 360, and a concrete write stores expiry
360 + 100. -/
theorem cache_set_fresh_expiry_witness :
    0 < Cache.mkTtl 0 ∧
    ((Cache.set (Cache.mkTtl 0) (TTLCache.init : TTLCache Nat Nat) 1 9 100).1 =
        .ok () ∧
      alookup 1 ((Cache.set (Cache.mkTtl 0)
          (TTLCache.init : TTLCache Nat Nat) 1 9 100).2).data =
        some ((alookup 1 (TTLCache.init : TTLCache Nat Nat).data).getD [] ++
          [(9, Expiry.fin (Cache.mkTtl 0 + 100))]) ∧
      ((Cache.set (Cache.mkTtl 0)
          (TTLCache.init : TTLCache Nat Nat) 1 9 100).2).size =
        (TTLCache.init : TTLCache Nat Nat).size + 1) :=
  ⟨by decide, cache_set_fresh_expiry (Cache.mkTtl 0) TTLCache.init 1 9 100 (by decide)⟩

/-- Claim C5: a successful delete(key) followed immediately by get(key)
(at any later instant) yields NotFound. -/
theorem delete_then_get_notFound {K V : Type} [DecidableEq K]
    (c : TTLCache K V) (k : K) (now now2 : Int) (hwf : c.WellFormed)
    (hdel : (Cache.delete c k now).1 = .ok ()) :
    (Cache.get ((Cache.delete c k now).2) k now2).1 = .error .notFound := by
  rcases halk : alookup k c.data with _ | r
  · exfalso
    unfold Cache.delete TTLCache.getitem at hdel
    simp [halk] at hdel
  · by_cases hemp : (r.filter (fun p => p.2.live now)).isEmpty
    · exfalso
      unfold Cache.delete TTLCache.getitem at hdel
      simp [halk, hemp] at hdel
    · obtain ⟨q, qs, hq⟩ :=
        List.exists_cons_of_ne_nil (fun hnil => by simp [hnil] at hemp)
        (l := r.filter (fun p => p.2.live now))
      have hdel2 : Cache.delete c k now =
          TTLCache.delitem
            ⟨aset k (r.filter (fun p => p.2.live now)) c.data,
             c.size - r.countP (fun p => !(p.2.live now))⟩ k := by
        unfold Cache.delete TTLCache.getitem
        simp [halk, hemp, hq]
      have hsome : (alookup k (aset k (r.filter (fun p => p.2.live now))
          c.data)).isSome := by
        rw [alookup_aset_self]
        rfl
      have hkeys : ((aset k (r.filter (fun p => p.2.live now))
          c.data).map Prod.fst).Nodup := by
        rw [keys_aset_of_some _ (by rw [halk]; rfl)]
        exact hwf
      have hstate : ((Cache.delete c k now).2).data =
          aerase k (aset k (r.filter (fun p => p.2.live now)) c.data) := by
        rw [hdel2]
        unfold TTLCache.delitem
        simp [hsome]
      have hnone : alookup k ((Cache.delete c k now).2).data = none := by
        rw [hstate]
        exact alookup_aerase_self hkeys
      unfold Cache.get TTLCache.getitem
      simp [hnone]

/-- Witness for C5 at a concrete input: a store holding one live value
under key 0; delete succeeds, and the following get reports NotFound. -/
theorem delete_then_get_notFound_witness :
    (((TTLCache.setitem (TTLCache.init : TTLCache Nat Nat)
        0 7 (some 10) 0).2).WellFormed ∧
      (Cache.delete ((TTLCache.setitem (TTLCache.init : TTLCache Nat Nat)
        0 7 (some 10) 0).2) 0 0).1 = .ok ()) ∧
    (Cache.get ((Cache.delete ((TTLCache.setitem (TTLCache.init : TTLCache Nat Nat)
        0 7 (some 10) 0).2) 0 0).2) 0 99).1 = .error .notFound :=
  ⟨⟨by unfold TTLCache.WellFormed; decide, rfl⟩,
   delete_then_get_notFound _ 0 0 99 (by unfold TTLCache.WellFormed; decide)
     rfl⟩

/-- Claim C3 (amended): for an entry inserted with finite TTL t > 0
under a key that holds no other values, a get strictly before t seconds
have elapsed returns the inserted value and a get after t seconds have
elapsed returns NotFound.  (When the key already holds an older live
value the read returns that older value instead — see the
counterexample.) -/
theorem set_then_get_ttl_window {K V : Type} [DecidableEq K]
    (c : TTLCache K V) (k : K) (v : V) (ttl ts tr : Int)
    (hfresh : alookup k c.data = none) (hpos : 0 < ttl) :
    (tr < ts + ttl →
      (Cache.get ((TTLCache.setitem c k v (some ttl) ts).2) k tr).1 = .ok v) ∧
    (ts + ttl < tr →
      (Cache.get ((TTLCache.setitem c k v (some ttl) ts).2) k tr).1 =
        .error .notFound) := by
  have h' : ¬ ttl ≤ 0 := not_le.mpr hpos
  have hrec : alookup k ((TTLCache.setitem c k v (some ttl) ts).2).data =
      some [(v, Expiry.fin (ttl + ts))] := by
    unfold TTLCache.setitem
    simp [h', hfresh, alookup_aset_self]
  constructor
  · intro hlt
    have hlive : Expiry.live (Expiry.fin (ttl + ts)) tr = true := by
      simp [Expiry.live]
      omega
    unfold Cache.get TTLCache.getitem
    simp [hrec, hlive]
  · intro hgt
    have hdead : Expiry.live (Expiry.fin (ttl + ts)) tr = false := by
      simp [Expiry.live]
      omega
    unfold Cache.get TTLCache.getitem
    simp [hrec, hdead]

/-- Witness for C3 at a concrete input: insert value 7 with TTL 10 at
time 100 under a fresh key; a read at time 105 returns 7 and a read at
time 111 reports NotFound. -/
theorem set_then_get_ttl_window_witness :
    (alookup 0 (TTLCache.init : TTLCache Nat Nat).data = none ∧
      (0 : Int) < 10 ∧ (105 : Int) < 100 + 10 ∧ (100 : Int) + 10 < 111) ∧
    (Cache.get ((TTLCache.setitem (TTLCache.init : TTLCache Nat Nat)
        0 7 (some 10) 100).2) 0 105).1 = .ok 7 ∧
    (Cache.get ((TTLCache.setitem (TTLCache.init : TTLCache Nat Nat)
        0 7 (some 10) 100).2) 0 111).1 = .error .notFound :=
  ⟨⟨by decide, by decide, by decide, by decide⟩,
   (set_then_get_ttl_window TTLCache.init 0 7 10 100 105 (by decide)
      (by decide)).1 (by decide),
   (set_then_get_ttl_window TTLCache.init 0 7 10 100 111 (by decide)
      (by decide)).2 (by decide)⟩

/-- Claim C3 counterexample: key 0 already holds live value 1 (TTL 5,
inserted at time 0); value 2 is then inserted with TTL 5 at time 0.  A
get at time 3 — strictly before 5 seconds have elapsed since value 2 was
inserted — returns the older value 1, not the inserted value 2 as the
claim requires. -/
theorem set_then_get_ttl_window_counterexample :
    (Cache.get ((TTLCache.setitem ((TTLCache.setitem
        (TTLCache.init : TTLCache Nat Nat) 0 1 (some 5) 0).2)
        0 2 (some 5) 0).2) 0 3).1 = .ok 1 ∧
    ((Except.ok 1 : Except Err Nat) ≠ .ok 2) := by
  constructor
  · rfl
  · simp

/-- Claim C1 (amended): for every key, get(key) first evicts all expired
values under the key, decrementing the size counter once per evicted
value; if live values remain it returns the OLDEST live value (the head
of the surviving append-order list, not the most recent) and stores the
surviving list back; if no live value remains the backing record is
removed entirely and NotFound is reported. -/
theorem cache_get_spec {K V : Type} [DecidableEq K]
    (c : TTLCache K V) (k : K) (now : Int) (hwf : c.WellFormed) :
    ((Cache.get c k now).2).size =
      c.size - ((alookup k c.data).getD []).countP (fun p => !(p.2.live now)) ∧
    (∀ v e rest,
      ((alookup k c.data).getD []).filter (fun p => p.2.live now) =
          (v, e) :: rest →
        (Cache.get c k now).1 = .ok v ∧
        alookup k ((Cache.get c k now).2).data = some ((v, e) :: rest)) ∧
    (((alookup k c.data).getD []).filter (fun p => p.2.live now) = [] →
      (Cache.get c k now).1 = .error .notFound ∧
      alookup k ((Cache.get c k now).2).data = none) := by
  refine ⟨?_, ?_, ?_⟩
  · unfold Cache.get TTLCache.getitem
    by_cases hemp :
        (((alookup k c.data).getD []).filter (fun p => p.2.live now)).isEmpty
    · simp [hemp]
    · rcases hf : ((alookup k c.data).getD []).filter (fun p => p.2.live now) with
        _ | ⟨q, qs⟩
      · simp [hf] at hemp
      · simp [hemp, hf]
  · intro v e rest hf
    unfold Cache.get TTLCache.getitem
    have hemp : ¬ (((alookup k c.data).getD []).filter
        (fun p => p.2.live now)).isEmpty := by
      simp [hf]
    simp only [hf] at hemp ⊢
    simp [hemp, alookup_aset_self, hf]
  · intro hf
    unfold Cache.get TTLCache.getitem
    have hemp : (((alookup k c.data).getD []).filter
        (fun p => p.2.live now)).isEmpty := by
      simp [hf]
    simp only [hf] at hemp ⊢
    simp only [hemp, if_pos rfl]
    constructor
    · rfl
    · rcases halk : alookup k c.data with _ | r
      · rw [aerase_of_alookup_none halk]
        exact halk
      · exact alookup_aerase_self hwf

/-- Witness for C1 at a concrete input: key 0 holds value 1 (expired at
read time) then values 2 and 3 (both live).  The read returns the
oldest live value 2, drops the expired pair from both the record and the
size counter, and a fully-expired key 1 is removed with NotFound. -/
theorem cache_get_spec_witness :
    ((⟨[(0, [(1, Expiry.fin 1), (2, Expiry.fin 50), (3, Expiry.fin 60)])],
        3⟩ : TTLCache Nat Nat).WellFormed ∧
      ((Cache.get (⟨[(0, [(1, Expiry.fin 1), (2, Expiry.fin 50),
          (3, Expiry.fin 60)])], 3⟩ : TTLCache Nat Nat) 0 10).2).size = 3 - 1 ∧
      (Cache.get (⟨[(0, [(1, Expiry.fin 1), (2, Expiry.fin 50),
          (3, Expiry.fin 60)])], 3⟩ : TTLCache Nat Nat) 0 10).1 = .ok 2 ∧
      alookup 0 ((Cache.get (⟨[(0, [(1, Expiry.fin 1), (2, Expiry.fin 50),
          (3, Expiry.fin 60)])], 3⟩ : TTLCache Nat Nat) 0 10).2).data =
        some [(2, Expiry.fin 50), (3, Expiry.fin 60)]) ∧
    ((Cache.get (⟨[(1, [(9, Expiry.fin 1)])], 1⟩ : TTLCache Nat Nat) 1 10).1 =
        .error .notFound ∧
      alookup 1 ((Cache.get (⟨[(1, [(9, Expiry.fin 1)])],
          1⟩ : TTLCache Nat Nat) 1 10).2).data = none) := by
  have hwf1 : (⟨[(0, [(1, Expiry.fin 1), (2, Expiry.fin 50), (3, Expiry.fin 60)])],
      3⟩ : TTLCache Nat Nat).WellFormed := by
    unfold TTLCache.WellFormed
    decide
  have hwf2 : (⟨[(1, [(9, Expiry.fin 1)])], 1⟩ : TTLCache Nat Nat).WellFormed := by
    unfold TTLCache.WellFormed
    decide
  have h1 := cache_get_spec (⟨[(0, [(1, Expiry.fin 1), (2, Expiry.fin 50),
      (3, Expiry.fin 60)])], 3⟩ : TTLCache Nat Nat) 0 10 hwf1
  have h2 := cache_get_spec (⟨[(1, [(9, Expiry.fin 1)])],
      1⟩ : TTLCache Nat Nat) 1 10 hwf2
  refine ⟨⟨hwf1, ?_, ?_, ?_⟩, ?_, ?_⟩
  · have := h1.1
    rw [this]
    rfl
  · exact (h1.2.1 2 (Expiry.fin 50) [(3, Expiry.fin 60)] (by decide)).1
  · exact (h1.2.1 2 (Expiry.fin 50) [(3, Expiry.fin 60)] (by decide)).2
  · exact (h2.2.2 (by decide)).1
  · exact (h2.2.2 (by decide)).2

/-- Claim C1 counterexample: key 0 holds live values 10 then 20 (both
within TTL).  The most recent live value stored for the key is 20, but
get returns .ok 10 — the oldest — so get does not return the most
recent live value. -/
theorem cache_get_spec_counterexample :
    (((alookup 0 ((TTLCache.setitem ((TTLCache.setitem
        (TTLCache.init : TTLCache Nat Nat) 0 10 (some 100) 0).2)
        0 20 (some 100) 0).2).data).getD []).filter
        (fun p => p.2.live 0)).getLast? = some (20, Expiry.fin 100) ∧
    (Cache.get ((TTLCache.setitem ((TTLCache.setitem
        (TTLCache.init : TTLCache Nat Nat) 0 10 (some 100) 0).2)
        0 20 (some 100) 0).2) 0 0).1 = .ok 10 ∧
    ((Except.ok 10 : Except Err Nat) ≠ .ok 20) := by
  refine ⟨by decide, rfl, by simp⟩

theorem alookup_append_right {K β : Type} [DecidableEq K] {k : K} :
    ∀ {l1 : List (K × β)} (l2 : List (K × β)), k ∉ l1.map Prod.fst →
      alookup k (l1 ++ l2) = alookup k l2 := by
  intro l1
  induction l1 with
  | nil => intro l2 _; rfl
  | cons p l ih =>
    intro l2 h
    simp only [List.map_cons, List.mem_cons] at h
    push_neg at h
    have hp : ¬ p.1 = k := fun hc => h.1 hc.symm
    simp only [List.cons_append, alookup, hp, if_false]
    exact ih l2 h.2

theorem alookup_of_mem_nodup {K β : Type} [DecidableEq K] {q : K × β} :
    ∀ {l : List (K × β)} (rest : List (K × β)),
      ((l ++ rest).map Prod.fst).Nodup → q ∈ l →
      alookup q.1 (l ++ rest) = some q.2 := by
  intro l
  induction l with
  | nil => intro rest _ hq; simp at hq
  | cons p l ih =>
    intro rest hnd hq
    rcases List.mem_cons.mp hq with h | h
    · subst h
      simp [alookup]
    · have hk : q.1 ∈ (l ++ rest).map Prod.fst := by
        simp only [List.map_append, List.mem_append]
        exact Or.inl (List.mem_map.mpr ⟨q, h, rfl⟩)
      simp only [List.cons_append, List.map_cons, List.nodup_cons] at hnd
      have hp : ¬ p.1 = q.1 := fun hc => hnd.1 (by rw [hc]; exact hk)
      simp only [List.cons_append, alookup, hp, if_false]
      exact ih rest hnd.2 h

theorem itemsGo_cons_some {K V : Type} [DecidableEq K] (now : Int)
    (c : TTLCache K V) (k0 : K) (ks : List K) (vs : List V)
    (h : (c.getitem k0 now).1 = some vs) :
    TTLCache.itemsGo now c (k0 :: ks) =
      ((k0, some vs) :: (TTLCache.itemsGo now ((c.getitem k0 now).2) ks).1,
       (TTLCache.itemsGo now ((c.getitem k0 now).2) ks).2) := by
  have hpair : c.getitem k0 now = (some vs, (c.getitem k0 now).2) := by
    conv_lhs => rw [← Prod.mk.eta (p := c.getitem k0 now)]
    rw [h]
  conv_lhs => unfold TTLCache.itemsGo
  rw [hpair]

theorem itemsGo_cons_none {K V : Type} [DecidableEq K] (now : Int)
    (c : TTLCache K V) (k0 : K) (ks : List K)
    (h : (c.getitem k0 now).1 = none) :
    TTLCache.itemsGo now c (k0 :: ks) =
      ([(k0, (none : Option (List V)))], (c.getitem k0 now).2, true) := by
  have hpair : c.getitem k0 now = (none, (c.getitem k0 now).2) := by
    conv_lhs => rw [← Prod.mk.eta (p := c.getitem k0 now)]
    rw [h]
  conv_lhs => unfold TTLCache.itemsGo
  rw [hpair]

theorem itemsGo_live_prefix_dead {K V : Type} [DecidableEq K] {k : K}
    {now : Int} {r : List (V × Expiry)}
    (hdead : ∀ p ∈ r, p.2.live now = false) :
    ∀ (ks1 : List (K × List (V × Expiry))) (c : TTLCache K V)
      (restks : List K),
      alookup k c.data = some r →
      (∀ q ∈ ks1, alookup q.1 c.data = some q.2) →
      (∀ q ∈ ks1, q.2.filter (fun p => p.2.live now) ≠ []) →
      (∀ q ∈ ks1, q.1 ≠ k) →
      (ks1.map Prod.fst).Nodup →
      (TTLCache.itemsGo now c (ks1.map Prod.fst ++ k :: restks)).1 =
        ks1.map (fun q => (q.1,
          some ((q.2.filter (fun p => p.2.live now)).map Prod.fst))) ++
          [(k, (none : Option (List V)))] ∧
      (TTLCache.itemsGo now c (ks1.map Prod.fst ++ k :: restks)).2.2 = true := by
  intro ks1
  induction ks1 with
  | nil =>
    intro c restks hrk _ _ _ _
    have hfil : r.filter (fun p => p.2.live now) = [] := by
      rw [List.filter_eq_nil_iff]
      intro p hp
      simp [hdead p hp]
    have h1 : (c.getitem k now).1 = none := by
      unfold TTLCache.getitem
      rw [hrk]
      simp [hfil]
    simp only [List.map_nil, List.nil_append]
    rw [itemsGo_cons_none now c k restks h1]
    exact ⟨rfl, rfl⟩
  | cons q ks1 ih =>
    intro c restks hrk hlook hlive hkk hnd
    have hlq : alookup q.1 c.data = some q.2 := hlook q (by simp)
    have hflq : q.2.filter (fun p => p.2.live now) ≠ [] := hlive q (by simp)
    obtain ⟨p0, ps, hps⟩ := List.exists_cons_of_ne_nil hflq
    have h1 : (c.getitem q.1 now).1 =
        some ((q.2.filter (fun p => p.2.live now)).map Prod.fst) := by
      unfold TTLCache.getitem
      rw [hlq]
      simp [hps]
    have hqk : q.1 ≠ k := hkk q (by simp)
    have hrk' : alookup k ((c.getitem q.1 now).2).data = some r := by
      rw [getitem_alookup_other c now hqk]
      exact hrk
    have hnd' : (ks1.map Prod.fst).Nodup := by
      simp only [List.map_cons, List.nodup_cons] at hnd
      exact hnd.2
    have hlook' : ∀ q' ∈ ks1,
        alookup q'.1 ((c.getitem q.1 now).2).data = some q'.2 := by
      intro q' hq'
      have hne2 : q.1 ≠ q'.1 := by
        simp only [List.map_cons, List.nodup_cons] at hnd
        intro hc
        exact hnd.1 (by rw [hc]; exact List.mem_map.mpr ⟨q', hq', rfl⟩)
      rw [getitem_alookup_other c now hne2]
      exact hlook q' (by simp [hq'])
    have ihh := ih ((c.getitem q.1 now).2) restks hrk' hlook'
      (fun q' hq' => hlive q' (by simp [hq']))
      (fun q' hq' => hkk q' (by simp [hq'])) hnd'
    have hstep : TTLCache.itemsGo now c
        ((q :: ks1).map Prod.fst ++ k :: restks) =
        ((q.1, some ((q.2.filter (fun p => p.2.live now)).map Prod.fst)) ::
          (TTLCache.itemsGo now ((c.getitem q.1 now).2)
            (ks1.map Prod.fst ++ k :: restks)).1,
         (TTLCache.itemsGo now ((c.getitem q.1 now).2)
            (ks1.map Prod.fst ++ k :: restks)).2) := by
      simp only [List.map_cons, List.cons_append]
      rw [itemsGo_cons_some now c q.1 (ks1.map Prod.fst ++ k :: restks)
        ((q.2.filter (fun p => p.2.live now)).map Prod.fst) h1]
    refine ⟨?_, ?_⟩
    · rw [hstep]
      simp only [List.map_cons, List.cons_append]
      rw [ihh.1]
    · rw [hstep]
      exact ihh.2

/-- Claim C8 (amended): key iteration yields every key present in the
backing map, including a key whose stored values have all expired, with
no expiry filtering.  Pair iteration pairs each key with the result of
get — keys whose records still hold a live value get their live value
lists — until it reaches the first fully-expired key: that key is
produced paired with None, after which the read has deleted the key and
iteration aborts with a RuntimeError for mutation during iteration,
yielding no further pairs. -/
theorem iteration_produces_dead_keys {K V : Type} [DecidableEq K]
    (c : TTLCache K V) (k : K) (now : Int) (r : List (V × Expiry))
    (l1 l2 : List (K × List (V × Expiry)))
    (hdata : c.data = l1 ++ (k, r) :: l2)
    (hne : r ≠ []) (hdead : ∀ p ∈ r, p.2.live now = false)
    (hlive1 : ∀ q ∈ l1, q.2.filter (fun p => p.2.live now) ≠ [])
    (hwf : c.WellFormed) :
    k ∈ c.iterKeys ∧
    (c.items now).1 =
      l1.map (fun q => (q.1,
        some ((q.2.filter (fun p => p.2.live now)).map Prod.fst))) ++
        [(k, (none : Option (List V)))] ∧
    (c.items now).2.2 = true := by
  have hkeys : c.iterKeys = l1.map Prod.fst ++ k :: l2.map Prod.fst := by
    unfold TTLCache.iterKeys
    rw [hdata]
    simp
  have hndall : ((l1 ++ (k, r) :: l2).map Prod.fst).Nodup := by
    have hh := hwf
    unfold TTLCache.WellFormed at hh
    rw [hdata] at hh
    exact hh
  have hndsplit : (l1.map Prod.fst).Nodup ∧
      ((k, r) :: l2 |>.map Prod.fst).Nodup ∧
      (l1.map Prod.fst).Disjoint (((k, r) :: l2).map Prod.fst) := by
    rw [List.map_append] at hndall
    exact List.nodup_append.mp hndall
  have hkk : ∀ q ∈ l1, q.1 ≠ k := by
    intro q hq hc
    exact hndsplit.2.2 (List.mem_map.mpr ⟨q, hq, hc⟩) (by simp)
  have hknot : k ∉ l1.map Prod.fst := by
    intro hkmem
    exact hndsplit.2.2 hkmem (by simp)
  have hrk : alookup k c.data = some r := by
    rw [hdata, alookup_append_right _ hknot]
    simp [alookup]
  have hlook : ∀ q ∈ l1, alookup q.1 c.data = some q.2 := by
    intro q hq
    rw [hdata]
    exact alookup_of_mem_nodup ((k, r) :: l2) hndall hq
  have haux := itemsGo_live_prefix_dead hdead l1 c (l2.map Prod.fst)
    hrk hlook hlive1 hkk hndsplit.1
  refine ⟨by rw [hkeys]; simp, ?_, ?_⟩
  · unfold TTLCache.items
    rw [hkeys]
    exact haux.1
  · unfold TTLCache.items
    rw [hkeys]
    exact haux.2

/-- Witness for C8 at a concrete input: key 1 holds a live value and is
followed by key 0 whose only value expired at time 5.  Key iteration
produces 0 anyway; pair iteration yields (1, [5]) then (0, None) and
then stops with the mutation-during-iteration error. -/
theorem iteration_produces_dead_keys_witness :
    ((⟨[(1, [(5, Expiry.fin 100)]), (0, [(9, Expiry.fin 1)])], 2⟩ :
        TTLCache Nat Nat).WellFormed ∧
      [((9 : Nat), Expiry.fin 1)] ≠ [] ∧
      (∀ p ∈ [((9 : Nat), Expiry.fin 1)], p.2.live 5 = false) ∧
      (∀ q ∈ [((1 : Nat), [((5 : Nat), Expiry.fin 100)])],
        q.2.filter (fun p => p.2.live 5) ≠ [])) ∧
    0 ∈ (⟨[(1, [(5, Expiry.fin 100)]), (0, [(9, Expiry.fin 1)])], 2⟩ :
      TTLCache Nat Nat).iterKeys ∧
    ((⟨[(1, [(5, Expiry.fin 100)]), (0, [(9, Expiry.fin 1)])], 2⟩ :
      TTLCache Nat Nat).items 5).1 = [(1, some [5]), (0, none)] ∧
    ((⟨[(1, [(5, Expiry.fin 100)]), (0, [(9, Expiry.fin 1)])], 2⟩ :
      TTLCache Nat Nat).items 5).2.2 = true :=
  ⟨⟨by unfold TTLCache.WellFormed; decide, by decide, by decide, by decide⟩,
   (iteration_produces_dead_keys
      (⟨[(1, [(5, Expiry.fin 100)]), (0, [(9, Expiry.fin 1)])], 2⟩ :
        TTLCache Nat Nat) 0 5 [(9, Expiry.fin 1)]
      [(1, [(5, Expiry.fin 100)])] [] rfl (by decide) (by decide) (by decide)
      (by unfold TTLCache.WellFormed; decide)).1,
   (iteration_produces_dead_keys
      (⟨[(1, [(5, Expiry.fin 100)]), (0, [(9, Expiry.fin 1)])], 2⟩ :
        TTLCache Nat Nat) 0 5 [(9, Expiry.fin 1)]
      [(1, [(5, Expiry.fin 100)])] [] rfl (by decide) (by decide) (by decide)
      (by unfold TTLCache.WellFormed; decide)).2.1,
   (iteration_produces_dead_keys
      (⟨[(1, [(5, Expiry.fin 100)]), (0, [(9, Expiry.fin 1)])], 2⟩ :
        TTLCache Nat Nat) 0 5 [(9, Expiry.fin 1)]
      [(1, [(5, Expiry.fin 100)])] [] rfl (by decide) (by decide) (by decide)
      (by unfold TTLCache.WellFormed; decide)).2.2⟩

/-- Claim C8 counterexample: key 0 was written with TTL 1 at time 0; at
time 5 its only stored value has expired, yet key iteration produces 0
and pair iteration produces the pair (0, None) — a pair that carries no
live value — so neither iteration applies the lazy-expiry-on-access
rule the claim asserts. -/
theorem iteration_produces_dead_keys_counterexample :
    (∀ p ∈ (alookup 0 ((TTLCache.setitem (TTLCache.init : TTLCache Nat Nat)
        0 1 (some 1) 0).2).data).getD [], p.2.live 5 = false) ∧
    (alookup 0 ((TTLCache.setitem (TTLCache.init : TTLCache Nat Nat)
        0 1 (some 1) 0).2).data).getD [] ≠ [] ∧
    0 ∈ ((TTLCache.setitem (TTLCache.init : TTLCache Nat Nat)
        0 1 (some 1) 0).2).iterKeys ∧
    (0, (none : Option (List Nat))) ∈
      (((TTLCache.setitem (TTLCache.init : TTLCache Nat Nat)
        0 1 (some 1) 0).2).items 5).1 := by
  refine ⟨by decide, by decide, by decide, by decide⟩
theorem live_counts_split {V : Type} (now : Int) :
    ∀ r : List (V × Expiry),
      r.countP (fun p => p.2.live now) + r.countP (fun p => !(p.2.live now)) =
        r.length :=
  countP_add_countP_not (fun p : V × Expiry => p.2.live now)

theorem live_countP_eq_filter_length {V : Type} (now : Int)
    (r : List (V × Expiry)) :
    r.countP (fun p => p.2.live now) =
      (r.filter (fun p => p.2.live now)).length :=
  List.countP_eq_length_filter _ r

theorem sum_lens_aset_append_one {K α : Type} [DecidableEq K]
    (k : K) (x : α) (l : List (K × List α)) :
    ((aset k ((alookup k l).getD [] ++ [x]) l).map (fun p => p.2.length)).sum =
      (l.map (fun p => p.2.length)).sum + 1 := by
  rcases halk : alookup k l with _ | r
  · rw [aset_of_alookup_none _ halk]
    simp
  · have h := sum_lens_aset_some (k := k)
      (r := (some r).getD [] ++ [x]) halk
    simp only [Option.getD_some, List.length_append, List.length_cons,
      List.length_nil] at h ⊢
    omega

theorem setitem_preserves_diff {K V : Type} [DecidableEq K]
    (c : TTLCache K V) (k : K) (v : V) (ttl : Option Int) (now : Int) :
    ((TTLCache.setitem c k v ttl now).2).size -
      (((TTLCache.setitem c k v ttl now).2).storedCount : Int) =
      c.size - (c.storedCount : Int) := by
  unfold TTLCache.setitem
  rcases ttl with _ | t
  · simp only [TTLCache.storedCount]
    rw [sum_lens_aset_append_one]
    omega
  · by_cases ht : t ≤ 0
    · simp [ht]
    · simp only [ht, if_false, TTLCache.storedCount]
      rw [sum_lens_aset_append_one]
      omega

theorem getitem_preserves_diff {K V : Type} [DecidableEq K]
    (c : TTLCache K V) (k : K) (now : Int) :
    ((TTLCache.getitem c k now).2).size -
      (((TTLCache.getitem c k now).2).storedCount : Int) =
      c.size - (c.storedCount : Int) := by
  unfold TTLCache.getitem
  rcases halk : alookup k c.data with _ | r
  · rw [aerase_of_alookup_none halk]
    simp [TTLCache.storedCount]
  · have hsplit := live_counts_split now r
    have hflen := live_countP_eq_filter_length now r
    rcases hq : r.filter (fun p => p.2.live now) with _ | ⟨q, qs⟩
    · have herase := sum_lens_aerase_some (k := k) halk
      simp only [Option.getD_some, hq, List.isEmpty_nil, if_true,
        TTLCache.storedCount]
      rw [hq] at hflen
      simp only [List.length_nil] at hflen
      omega
    · have hset := sum_lens_aset_some (k := k)
        (r := r.filter (fun p => p.2.live now)) halk
      simp only [Option.getD_some, hq, List.isEmpty_cons, Bool.false_eq_true,
        if_false, TTLCache.storedCount]
      rw [hq] at hset hflen
      simp only [List.length_cons] at hset hflen
      omega

theorem delete_shifts_diff {K V : Type} [DecidableEq K]
    (c : TTLCache K V) (k : K) (now : Int) :
    ((Cache.delete c k now).2).size -
      (((Cache.delete c k now).2).storedCount : Int) =
      c.size - (c.storedCount : Int) +
        ((alookup k c.data).getD []).countP (fun p => p.2.live now) := by
  unfold Cache.delete TTLCache.getitem
  rcases halk : alookup k c.data with _ | r
  · rw [aerase_of_alookup_none halk]
    simp [TTLCache.storedCount]
  · have hsplit := live_counts_split now r
    have hflen := live_countP_eq_filter_length now r
    rcases hq : r.filter (fun p => p.2.live now) with _ | ⟨q, qs⟩
    · have herase := sum_lens_aerase_some (k := k) halk
      simp only [Option.getD_some, hq, List.isEmpty_nil, if_true,
        TTLCache.storedCount]
      rw [hq] at hflen
      simp only [List.length_nil] at hflen
      omega
    · have hset := sum_lens_aset_some (k := k)
        (r := r.filter (fun p => p.2.live now)) halk
      have hsome : (alookup k (aset k (r.filter (fun p => p.2.live now))
          c.data)).isSome := by
        rw [alookup_aset_self]
        rfl
      have herase2 := sum_lens_aerase_some (k := k)
        (alookup_aset_self k (r.filter (fun p => p.2.live now)) c.data)
      simp only [Option.getD_some, hq, List.isEmpty_cons, Bool.false_eq_true,
        if_false, List.map_cons]
      unfold TTLCache.delitem
      rw [hq] at hsome
      simp only [hsome, if_true, TTLCache.storedCount]
      rw [hq] at herase2 hset hflen
      simp only [List.length_cons] at herase2 hset hflen
      omega

theorem runOps_invariant_aux {K V : Type} [DecidableEq K] :
    ∀ (ops : List (Op K V)) (c : TTLCache K V) (acc : Nat),
      c.size = (c.storedCount : Int) + (acc : Int) →
      ((runOps c acc ops).1).size =
        (((runOps c acc ops).1).storedCount : Int) + ((runOps c acc ops).2 : Int) := by
  intro ops
  induction ops with
  | nil =>
    intro c acc h
    simpa [runOps] using h
  | cons op ops ih =>
    intro c acc h
    cases op with
    | flushOp =>
      rw [show runOps c acc (.flushOp :: ops) = runOps c.flush 0 ops from rfl]
      apply ih
      simp [TTLCache.flush, TTLCache.storedCount]
    | setOp k v ttl now =>
      rw [show runOps c acc (.setOp k v ttl now :: ops) =
        runOps ((Op.setOp k v ttl now).step c).1
          (acc + ((Op.setOp k v ttl now).step c).2) ops from rfl]
      apply ih
      have hd := setitem_preserves_diff c k v ttl now
      simp only [Op.step]
      omega
    | getOp k now =>
      rw [show runOps c acc (.getOp k now :: ops) =
        runOps ((Op.getOp k now).step c).1
          (acc + ((Op.getOp k now).step c).2) ops from rfl]
      apply ih
      have hd := getitem_preserves_diff c k now
      simp only [Op.step]
      omega
    | deleteOp k now =>
      rw [show runOps c acc (.deleteOp k now :: ops) =
        runOps ((Op.deleteOp k now).step c).1
          (acc + ((Op.deleteOp k now).step c).2) ops from rfl]
      apply ih
      have hd := delete_shifts_diff c k now
      simp only [Op.step]
      omega

/-- Claim C2 (amended): after any sequence of flush, set, get and delete
operations from a fresh store, the size counter equals the number of
pairs physically stored across all keys — which can exceed the live-pair
count, since expired pairs under keys not yet re-read stay stored and
counted — plus the number of pairs that successful deletes have removed
since the last flush: TTLCache.__delitem__ removes the record without
decrementing size, so a delete of a key with live values leaves size
strictly above the live-pair count of the resulting store. -/
theorem runOps_size_accounting {K V : Type} [DecidableEq K]
    (ops : List (Op K V)) :
    ((runOps (TTLCache.init : TTLCache K V) 0 ops).1).size =
      (((runOps (TTLCache.init : TTLCache K V) 0 ops).1).storedCount : Int) +
        ((runOps (TTLCache.init : TTLCache K V) 0 ops).2 : Int) :=
  runOps_invariant_aux ops TTLCache.init 0
    (by simp [TTLCache.init, TTLCache.storedCount])

/-- Claim C2 counterexample: starting from a fresh store, set key 0 with
TTL 10 at time 0, then delete key 0 at time 0 (a key with one live
value).  The delete succeeds, but the size counter stays 1 while the
resulting store has 0 live pairs — size does not equal the live-pair
count right after a size-affecting delete. -/
theorem runOps_size_accounting_counterexample :
    (Cache.delete ((TTLCache.setitem (TTLCache.init : TTLCache Nat Nat)
        0 7 (some 10) 0).2) 0 0).1 = .ok () ∧
    ((Cache.delete ((TTLCache.setitem (TTLCache.init : TTLCache Nat Nat)
        0 7 (some 10) 0).2) 0 0).2).size = 1 ∧
    ((Cache.delete ((TTLCache.setitem (TTLCache.init : TTLCache Nat Nat)
        0 7 (some 10) 0).2) 0 0).2).liveCount 0 = 0 ∧
    (1 : Int) ≠ 0 :=
  ⟨rfl, rfl, rfl, by decide⟩

theorem getD_set_self {α : Type} (x d : α) :
    ∀ (l : List α) (a : Nat), a < l.length → (l.set a x).getD a d = x := by
  intro l
  induction l with
  | nil => intro a h; simp at h
  | cons b l ih =>
    intro a h
    cases a with
    | zero => rfl
    | succ a =>
      simp only [List.set, List.getD, List.length_cons] at h ⊢
      exact ih a (by omega)

/-- Claim C7: a transfer request (upload, download or delete — they share
this prologue) against a live task whose state has is_assigned true is
rejected with 409 Conflict, does not start a transfer loop, and leaves
every task state record unchanged; a claim attempt on an unassigned live
task sets is_assigned true, and stores it, before any I/O begins. -/
theorem transfer_request_assignment {K : Type} [DecidableEq K]
    (ttl : Int) (sys : Sys K) (tid : K) (now : Int) (a : Nat)
    (hget : (Cache.get sys.cache tid now).1 = .ok a) :
    ((sys.heap.getD a ⟨false, false⟩).is_assigned = true →
      transfer_request ttl sys tid now =
        (409, ⟨(Cache.get sys.cache tid now).2, sys.heap⟩, false)) ∧
    ((sys.heap.getD a ⟨false, false⟩).is_assigned = false → 0 < ttl →
      a < sys.heap.length →
      (transfer_request ttl sys tid now).1 = 200 ∧
      (transfer_request ttl sys tid now).2.2 = true ∧
      (((transfer_request ttl sys tid now).2.1).heap.getD a
          ⟨false, false⟩).is_assigned = true) := by
  have hpair : Cache.get sys.cache tid now =
      (Except.ok a, (Cache.get sys.cache tid now).2) := by
    conv_lhs => rw [← Prod.mk.eta (p := Cache.get sys.cache tid now)]
    rw [hget]
  constructor
  · intro hassigned
    unfold transfer_request
    rw [hpair]
    dsimp only
    rw [if_pos hassigned]
  · intro hunassigned httl hlen
    have hok : Cache.set ttl (Cache.get sys.cache tid now).2 tid a now =
        (.ok (), (Cache.set ttl (Cache.get sys.cache tid now).2 tid a now).2) := by
      unfold Cache.set TTLCache.setitem
      simp [not_le.mpr httl]
    have hreq : transfer_request ttl sys tid now =
        (200, ⟨(Cache.set ttl (Cache.get sys.cache tid now).2 tid a now).2,
          sys.heap.set a
            ⟨true, (sys.heap.getD a ⟨false, false⟩).is_paused⟩⟩, true) := by
      unfold transfer_request
      rw [hpair]
      dsimp only
      rw [if_neg (by rw [hunassigned]; simp), hok]
    rw [hreq]
    exact ⟨rfl, rfl, by rw [getD_set_self _ _ _ _ hlen]⟩

/-- Witness for C7 at concrete inputs: a one-task system whose state is
already assigned answers 409 with the heap untouched and no transfer
started; the same system with an unassigned state answers 200, starts
the transfer, and its stored state is assigned. -/
theorem transfer_request_assignment_witness :
    ((Cache.get (⟨⟨[(0, [(0, Expiry.fin 10)])], 1⟩,
        [⟨true, false⟩]⟩ : Sys Nat).cache 0 0).1 = .ok 0 ∧
      transfer_request 360 (⟨⟨[(0, [(0, Expiry.fin 10)])], 1⟩,
        [⟨true, false⟩]⟩ : Sys Nat) 0 0 =
        (409, ⟨(Cache.get (⟨⟨[(0, [(0, Expiry.fin 10)])], 1⟩,
          [⟨true, false⟩]⟩ : Sys Nat).cache 0 0).2, [⟨true, false⟩]⟩, false)) ∧
    ((Cache.get (⟨⟨[(0, [(0, Expiry.fin 10)])], 1⟩,
        [⟨false, false⟩]⟩ : Sys Nat).cache 0 0).1 = .ok 0 ∧
      (transfer_request 360 (⟨⟨[(0, [(0, Expiry.fin 10)])], 1⟩,
        [⟨false, false⟩]⟩ : Sys Nat) 0 0).1 = 200 ∧
      (transfer_request 360 (⟨⟨[(0, [(0, Expiry.fin 10)])], 1⟩,
        [⟨false, false⟩]⟩ : Sys Nat) 0 0).2.2 = true ∧
      (((transfer_request 360 (⟨⟨[(0, [(0, Expiry.fin 10)])], 1⟩,
          [⟨false, false⟩]⟩ : Sys Nat) 0 0).2.1).heap.getD 0
          ⟨false, false⟩).is_assigned = true) :=
  ⟨⟨rfl,
    (transfer_request_assignment 360 (⟨⟨[(0, [(0, Expiry.fin 10)])], 1⟩,
      [⟨true, false⟩]⟩ : Sys Nat) 0 0 0 (by rfl)).1 (by rfl)⟩,
   ⟨rfl,
    (transfer_request_assignment 360 (⟨⟨[(0, [(0, Expiry.fin 10)])], 1⟩,
      [⟨false, false⟩]⟩ : Sys Nat) 0 0 0 (by rfl)).2 (by rfl) (by decide)
      (by decide)⟩⟩

theorem get_all_live {K : Type} [DecidableEq K] (c : TTLCache K Nat) (k : K)
    (now : Int) (A : Nat) (e0 : Expiry) (rest : List (Nat × Expiry))
    (hrec : alookup k c.data = some ((A, e0) :: rest))
    (hlive : ∀ p ∈ (A, e0) :: rest, p.2.live now = true) :
    Cache.get c k now =
      (.ok A, ⟨aset k ((A, e0) :: rest) c.data, c.size⟩) := by
  have hfil : ((A, e0) :: rest).filter (fun p => p.2.live now) =
      (A, e0) :: rest := List.filter_eq_self.mpr hlive
  have hcnt : (((A, e0) :: rest).countP (fun p => !(p.2.live now))) = 0 :=
    List.countP_eq_zero.mpr (by intro p hp; simp [hlive p hp])
  unfold Cache.get TTLCache.getitem
  rw [hrec]
  simp only [Option.getD_some, hfil, hcnt, List.isEmpty_cons,
    Bool.false_eq_true, if_false, List.map_cons, Nat.cast_zero, sub_zero]

theorem pause_step_200 {K : Type} [DecidableEq K] (ttl : Int) (sys : Sys K)
    (tid : K) (t : Int) (A : Nat) (e0 : Expiry) (rest : List (Nat × Expiry))
    (H : List TaskState) (b : Bool)
    (hrec : alookup tid sys.cache.data = some ((A, e0) :: rest))
    (hlive : ∀ p ∈ (A, e0) :: rest, p.2.live t = true)
    (hheap : sys.heap = H ++ [⟨b, false⟩]) (hA : A = H.length)
    (httl : 0 < ttl) :
    pause_task ttl sys tid t =
      (200, ⟨⟨aset tid (((A, e0) :: rest) ++ [(A, Expiry.fin (ttl + t))])
          (aset tid ((A, e0) :: rest) sys.cache.data),
        sys.cache.size + 1⟩, H ++ [⟨b, true⟩]⟩) := by
  have hget := get_all_live sys.cache tid t A e0 rest hrec hlive
  unfold pause_task
  rw [hget]
  dsimp only
  rw [hheap, hA, getD_append_length]
  dsimp only
  rw [if_neg (by simp), set_append_length]
  unfold Cache.set TTLCache.setitem
  dsimp only
  rw [if_neg (not_le.mpr httl)]
  rw [alookup_aset_self]
  rfl

theorem pause_step_409 {K : Type} [DecidableEq K] (ttl : Int) (sys : Sys K)
    (tid : K) (t : Int) (A : Nat) (e0 : Expiry) (rest : List (Nat × Expiry))
    (H : List TaskState) (b : Bool)
    (hrec : alookup tid sys.cache.data = some ((A, e0) :: rest))
    (hlive : ∀ p ∈ (A, e0) :: rest, p.2.live t = true)
    (hheap : sys.heap = H ++ [⟨b, true⟩]) (hA : A = H.length) :
    pause_task ttl sys tid t =
      (409, ⟨⟨aset tid ((A, e0) :: rest) sys.cache.data,
        sys.cache.size⟩, sys.heap⟩) := by
  have hget := get_all_live sys.cache tid t A e0 rest hrec hlive
  unfold pause_task
  rw [hget]
  dsimp only
  rw [hheap, hA, getD_append_length]
  dsimp only
  rw [if_pos rfl]

theorem resume_step_200 {K : Type} [DecidableEq K] (ttl : Int) (sys : Sys K)
    (tid : K) (t : Int) (A : Nat) (e0 : Expiry) (rest : List (Nat × Expiry))
    (H : List TaskState) (b : Bool)
    (hrec : alookup tid sys.cache.data = some ((A, e0) :: rest))
    (hlive : ∀ p ∈ (A, e0) :: rest, p.2.live t = true)
    (hheap : sys.heap = H ++ [⟨b, true⟩]) (hA : A = H.length)
    (httl : 0 < ttl) :
    resume_task ttl sys tid t =
      (200, ⟨⟨aset tid (((A, e0) :: rest) ++ [(A, Expiry.fin (ttl + t))])
          (aset tid ((A, e0) :: rest) sys.cache.data),
        sys.cache.size + 1⟩, H ++ [⟨b, false⟩]⟩) := by
  have hget := get_all_live sys.cache tid t A e0 rest hrec hlive
  unfold resume_task
  rw [hget]
  dsimp only
  rw [hheap, hA, getD_append_length]
  dsimp only
  rw [if_pos rfl, set_append_length]
  unfold Cache.set TTLCache.setitem
  dsimp only
  rw [if_neg (not_le.mpr httl)]
  rw [alookup_aset_self]
  rfl

theorem resume_step_409 {K : Type} [DecidableEq K] (ttl : Int) (sys : Sys K)
    (tid : K) (t : Int) (A : Nat) (e0 : Expiry) (rest : List (Nat × Expiry))
    (H : List TaskState) (b : Bool)
    (hrec : alookup tid sys.cache.data = some ((A, e0) :: rest))
    (hlive : ∀ p ∈ (A, e0) :: rest, p.2.live t = true)
    (hheap : sys.heap = H ++ [⟨b, false⟩]) (hA : A = H.length) :
    resume_task ttl sys tid t =
      (409, ⟨⟨aset tid ((A, e0) :: rest) sys.cache.data,
        sys.cache.size⟩, sys.heap⟩) := by
  have hget := get_all_live sys.cache tid t A e0 rest hrec hlive
  unfold resume_task
  rw [hget]
  dsimp only
  rw [hheap, hA, getD_append_length]
  dsimp only
  rw [if_neg (by simp)]

theorem create_step {K : Type} [DecidableEq K] (ttl : Int) (sys : Sys K)
    (tid : K) (t0 : Int) (hfresh : alookup tid sys.cache.data = none)
    (httl : 0 < ttl) :
    create_task ttl sys tid t0 =
      some ⟨⟨aset tid [(sys.heap.length, Expiry.fin (ttl + t0))] sys.cache.data,
        sys.cache.size + 1⟩, sys.heap ++ [⟨false, false⟩]⟩ := by
  unfold create_task Cache.set TTLCache.setitem
  dsimp only
  rw [if_neg (not_le.mpr httl), hfresh]
  rfl

theorem pause_step_200_proj {K : Type} [DecidableEq K] (ttl : Int) (sys : Sys K)
    (tid : K) (t : Int) (A : Nat) (e0 : Expiry) (rest : List (Nat × Expiry))
    (H : List TaskState) (b : Bool)
    (hrec : alookup tid sys.cache.data = some ((A, e0) :: rest))
    (hlive : ∀ p ∈ (A, e0) :: rest, p.2.live t = true)
    (hheap : sys.heap = H ++ [⟨b, false⟩]) (hA : A = H.length)
    (httl : 0 < ttl) :
    (pause_task ttl sys tid t).1 = 200 ∧
    alookup tid ((pause_task ttl sys tid t).2).cache.data =
      some (((A, e0) :: rest) ++ [(A, Expiry.fin (ttl + t))]) ∧
    ((pause_task ttl sys tid t).2).heap = H ++ [⟨b, true⟩] := by
  rw [pause_step_200 ttl sys tid t A e0 rest H b hrec hlive hheap hA httl]
  exact ⟨rfl, by rw [alookup_aset_self], rfl⟩

theorem pause_step_409_proj {K : Type} [DecidableEq K] (ttl : Int) (sys : Sys K)
    (tid : K) (t : Int) (A : Nat) (e0 : Expiry) (rest : List (Nat × Expiry))
    (H : List TaskState) (b : Bool)
    (hrec : alookup tid sys.cache.data = some ((A, e0) :: rest))
    (hlive : ∀ p ∈ (A, e0) :: rest, p.2.live t = true)
    (hheap : sys.heap = H ++ [⟨b, true⟩]) (hA : A = H.length) :
    (pause_task ttl sys tid t).1 = 409 ∧
    alookup tid ((pause_task ttl sys tid t).2).cache.data =
      some ((A, e0) :: rest) ∧
    ((pause_task ttl sys tid t).2).heap = H ++ [⟨b, true⟩] := by
  rw [pause_step_409 ttl sys tid t A e0 rest H b hrec hlive hheap hA]
  exact ⟨rfl, by rw [alookup_aset_self], hheap⟩

theorem resume_step_200_proj {K : Type} [DecidableEq K] (ttl : Int)
    (sys : Sys K) (tid : K) (t : Int) (A : Nat) (e0 : Expiry)
    (rest : List (Nat × Expiry)) (H : List TaskState) (b : Bool)
    (hrec : alookup tid sys.cache.data = some ((A, e0) :: rest))
    (hlive : ∀ p ∈ (A, e0) :: rest, p.2.live t = true)
    (hheap : sys.heap = H ++ [⟨b, true⟩]) (hA : A = H.length)
    (httl : 0 < ttl) :
    (resume_task ttl sys tid t).1 = 200 ∧
    alookup tid ((resume_task ttl sys tid t).2).cache.data =
      some (((A, e0) :: rest) ++ [(A, Expiry.fin (ttl + t))]) ∧
    ((resume_task ttl sys tid t).2).heap = H ++ [⟨b, false⟩] := by
  rw [resume_step_200 ttl sys tid t A e0 rest H b hrec hlive hheap hA httl]
  exact ⟨rfl, by rw [alookup_aset_self], rfl⟩

/-- Claim C6: starting from a state where the task id is not in the
registry, create the task at t0; while the entry has not expired, a
resume of the freshly created (unpaused) task yields 409 Conflict, the
first pause succeeds with 200, a second pause while still paused yields
409 Conflict, a subsequent resume succeeds with 200, and a re-pause
after that resume succeeds with 200. -/
theorem task_pause_conflict_cycle {K : Type} [DecidableEq K]
    (sys : Sys K) (tid : K) (ttl t0 t1 t2 t3 t4 : Int)
    (hfresh : alookup tid sys.cache.data = none)
    (h01 : t0 ≤ t1) (h12 : t1 ≤ t2) (h23 : t2 ≤ t3) (h34 : t3 ≤ t4)
    (hwin : t4 < t0 + ttl) :
    ∃ sys1, create_task ttl sys tid t0 = some sys1 ∧
      (resume_task ttl sys1 tid t1).1 = 409 ∧
      (pause_task ttl sys1 tid t1).1 = 200 ∧
      (pause_task ttl (pause_task ttl sys1 tid t1).2 tid t2).1 = 409 ∧
      (resume_task ttl (pause_task ttl (pause_task ttl sys1 tid t1).2 tid
          t2).2 tid t3).1 = 200 ∧
      (pause_task ttl (resume_task ttl (pause_task ttl (pause_task ttl sys1 tid
          t1).2 tid t2).2 tid t3).2 tid t4).1 = 200 := by
  have httl : 0 < ttl := by omega
  have hcr := create_step ttl sys tid t0 hfresh httl
  set S1 : Sys K :=
    ⟨⟨aset tid [(sys.heap.length, Expiry.fin (ttl + t0))] sys.cache.data,
      sys.cache.size + 1⟩, sys.heap ++ [⟨false, false⟩]⟩ with hS1
  have hrec1 : alookup tid S1.cache.data =
      some ((sys.heap.length, Expiry.fin (ttl + t0)) :: []) := by
    rw [hS1]
    exact alookup_aset_self tid _ sys.cache.data
  have hheap1 : S1.heap = sys.heap ++ [⟨false, false⟩] := rfl
  have hlive1 : ∀ p ∈ ((sys.heap.length : Nat), Expiry.fin (ttl + t0)) :: [],
      p.2.live t1 = true := by
    intro p hp
    simp only [List.mem_singleton] at hp
    subst hp
    simp only [Expiry.live, decide_eq_true_eq]
    omega
  have h409a := resume_step_409 ttl S1 tid t1 sys.heap.length
    (Expiry.fin (ttl + t0)) [] sys.heap false hrec1 hlive1 hheap1 rfl
  have h1 := pause_step_200_proj ttl S1 tid t1 sys.heap.length
    (Expiry.fin (ttl + t0)) [] sys.heap false hrec1 hlive1 hheap1 rfl httl
  have hlive2 : ∀ p ∈ ((sys.heap.length : Nat), Expiry.fin (ttl + t0)) ::
      [((sys.heap.length : Nat), Expiry.fin (ttl + t1))],
      p.2.live t2 = true := by
    intro p hp
    simp only [List.mem_cons, List.mem_singleton, List.not_mem_nil,
      or_false] at hp
    rcases hp with hp | hp <;> subst hp <;>
      simp only [Expiry.live, decide_eq_true_eq] <;> omega
  have h2 := pause_step_409_proj ttl (pause_task ttl S1 tid t1).2 tid t2
    sys.heap.length (Expiry.fin (ttl + t0))
    [((sys.heap.length : Nat), Expiry.fin (ttl + t1))] sys.heap false
    h1.2.1 hlive2 h1.2.2 rfl
  have hlive3 : ∀ p ∈ ((sys.heap.length : Nat), Expiry.fin (ttl + t0)) ::
      [((sys.heap.length : Nat), Expiry.fin (ttl + t1))],
      p.2.live t3 = true := by
    intro p hp
    simp only [List.mem_cons, List.mem_singleton, List.not_mem_nil,
      or_false] at hp
    rcases hp with hp | hp <;> subst hp <;>
      simp only [Expiry.live, decide_eq_true_eq] <;> omega
  have h3 := resume_step_200_proj ttl
    (pause_task ttl (pause_task ttl S1 tid t1).2 tid t2).2 tid t3
    sys.heap.length (Expiry.fin (ttl + t0))
    [((sys.heap.length : Nat), Expiry.fin (ttl + t1))] sys.heap false
    h2.2.1 hlive3 h2.2.2 rfl httl
  have hlive4 : ∀ p ∈ ((sys.heap.length : Nat), Expiry.fin (ttl + t0)) ::
      [((sys.heap.length : Nat), Expiry.fin (ttl + t1)),
       ((sys.heap.length : Nat), Expiry.fin (ttl + t3))],
      p.2.live t4 = true := by
    intro p hp
    simp only [List.mem_cons, List.mem_singleton, List.not_mem_nil,
      or_false] at hp
    rcases hp with hp | hp | hp <;> subst hp <;>
      simp only [Expiry.live, decide_eq_true_eq] <;> omega
  have h4 := pause_step_200_proj ttl
    (resume_task ttl (pause_task ttl (pause_task ttl S1 tid t1).2 tid t2).2
      tid t3).2 tid t4
    sys.heap.length (Expiry.fin (ttl + t0))
    [((sys.heap.length : Nat), Expiry.fin (ttl + t1)),
     ((sys.heap.length : Nat), Expiry.fin (ttl + t3))] sys.heap false
    h3.2.1 hlive4 h3.2.2 rfl httl
  exact ⟨S1, hcr, by rw [h409a], h1.1, h2.1, h3.1, h4.1⟩

/-- Witness for C6 at a concrete input: empty system, task id 0, the
default TTL 360, and the operations at instants 0,1,2,3,4. -/
theorem task_pause_conflict_cycle_witness :
    ∃ sys1, create_task 360 (⟨⟨[], 0⟩, []⟩ : Sys Nat) 0 0 = some sys1 ∧
      (resume_task 360 sys1 0 1).1 = 409 ∧
      (pause_task 360 sys1 0 1).1 = 200 ∧
      (pause_task 360 (pause_task 360 sys1 0 1).2 0 2).1 = 409 ∧
      (resume_task 360 (pause_task 360 (pause_task 360 sys1 0 1).2 0 2).2
          0 3).1 = 200 ∧
      (pause_task 360 (resume_task 360 (pause_task 360 (pause_task 360 sys1 0
          1).2 0 2).2 0 3).2 0 4).1 = 200 :=
  task_pause_conflict_cycle (⟨⟨[], 0⟩, []⟩ : Sys Nat) 0 360 0 1 2 3 4 rfl
    (by decide) (by decide) (by decide) (by decide) (by decide)

theorem file_downloader_spec :
    ∀ (polls : List Poll) (input w : List (List Nat)),
      ((file_downloader polls input w).2.2 = .aborted →
        (file_downloader polls input w).1 ++
          (file_downloader polls input w).2.1 = w ++ input) ∧
      ((∀ ch ∈ input, ch ≠ []) →
        (file_downloader polls input w).2.2 = .completed →
        (file_downloader polls input w).1 = w ++ input ∧
          (file_downloader polls input w).2.1 = []) := by
  intro polls
  induction polls with
  | nil =>
    intro input w
    constructor
    · intro h
      simp [file_downloader] at h
    · intro _ h
      simp [file_downloader] at h
  | cons p ps ih =>
    intro input w
    cases p with
    | gone =>
      constructor
      · intro _
        simp [file_downloader]
      · intro _ h
        simp [file_downloader] at h
    | pausedNow =>
      constructor
      · intro h
        exact (ih input w).1 h
      · intro hne h
        exact (ih input w).2 hne h
    | runningNow =>
      cases input with
      | nil =>
        constructor
        · intro h
          simp [file_downloader] at h
        · intro _ _
          simp [file_downloader]
      | cons ch cs =>
        by_cases hch : ch.isEmpty
        · constructor
          · intro h
            simp [file_downloader, hch] at h
          · intro hne _
            exact absurd (List.isEmpty_iff.mp hch) (hne ch (by simp))
        · have hred : file_downloader (.runningNow :: ps) (ch :: cs) w =
              file_downloader ps cs (w ++ [ch]) := by
            simp [file_downloader, hch]
          constructor
          · intro h
            rw [hred] at h ⊢
            have := (ih cs (w ++ [ch])).1 h
            rw [this]
            simp
          · intro hne h
            rw [hred] at h ⊢
            have := (ih cs (w ++ [ch])).2
              (fun d hd => hne d (by simp [hd])) h
            refine ⟨?_, this.2⟩
            rw [this.1]
            simp

theorem delete_clears_record {K V : Type} [DecidableEq K]
    (c : TTLCache K V) (k : K) (now : Int) (hwf : c.WellFormed) :
    alookup k ((Cache.delete c k now).2).data = none := by
  rcases halk : alookup k c.data with _ | r
  · unfold Cache.delete TTLCache.getitem
    rw [halk]
    simp [aerase_of_alookup_none halk, halk]
  · rcases hq : r.filter (fun p => p.2.live now) with _ | ⟨q, qs⟩
    · unfold Cache.delete TTLCache.getitem
      rw [halk]
      simp only [Option.getD_some, hq, List.isEmpty_nil, if_true]
      exact alookup_aerase_self hwf
    · have hkeys : ((aset k (r.filter (fun p => p.2.live now))
          c.data).map Prod.fst).Nodup := by
        rw [keys_aset_of_some _ (by rw [halk]; rfl)]
        exact hwf
      have hsome : (alookup k (aset k (r.filter (fun p => p.2.live now))
          c.data)).isSome := by
        rw [alookup_aset_self]
        rfl
      unfold Cache.delete TTLCache.getitem
      rw [halk]
      simp only [Option.getD_some, hq, List.isEmpty_cons, Bool.false_eq_true,
        if_false, List.map_cons]
      unfold TTLCache.delitem
      rw [hq] at hsome hkeys
      simp only [hsome, if_true]
      exact alookup_aerase_self hkeys

theorem upload_epilogue_data {K : Type} [DecidableEq K]
    (c : TTLCache K Nat) (tid : K) (now : Int) :
    (upload_epilogue c tid now).1 = (Cache.delete c tid now).2 := by
  unfold upload_epilogue
  rcases h : Cache.delete c tid now with ⟨r, c'⟩
  cases r <;> rfl

/-- Claim C9: when an upload loop poll finds the registry entry absent,
the loop stops as aborted having consumed exactly what it already wrote
(written chunks followed by the untouched remaining input reassemble the
input); the epilogue then deletes the partially written destination file
and answers 404, not a completion.  When the inbound stream is exhausted
(its next chunk empty), the loop stops as completed with the entire
input written and nothing remaining, and after the epilogue the task
registry entry is gone. -/
theorem upload_loop_spec {K : Type} [DecidableEq K]
    (polls : List Poll) (input : List (List Nat))
    (c : TTLCache K Nat) (tid : K) (now : Int) (hwf : c.WellFormed) :
    ((file_downloader polls input []).2.2 = .aborted →
      (file_downloader polls input []).1 ++
        (file_downloader polls input []).2.1 = input) ∧
    ((∀ ch ∈ input, ch ≠ []) →
      (file_downloader polls input []).2.2 = .completed →
      (file_downloader polls input []).1 = input ∧
        (file_downloader polls input []).2.1 = []) ∧
    (alookup tid c.data = none →
      (upload_epilogue c tid now).2.1 = true ∧
      (upload_epilogue c tid now).2.2 = 404) ∧
    alookup tid ((upload_epilogue c tid now).1).data = none := by
  refine ⟨?_, ?_, ?_, ?_⟩
  · intro h
    have := (file_downloader_spec polls input []).1 h
    simpa using this
  · intro hne h
    have := (file_downloader_spec polls input []).2 hne h
    simpa using this
  · intro hnone
    have hdel : Cache.delete c tid now =
        (.error .notFound, ⟨aerase tid c.data, c.size - 0⟩) := by
      unfold Cache.delete TTLCache.getitem
      rw [hnone]
      simp
    unfold upload_epilogue
    rw [hdel]
    exact ⟨rfl, rfl⟩
  · rw [upload_epilogue_data]
    exact delete_clears_record c tid now hwf

/-- Witness for C9 at a concrete input: two polls (one chunk transferred,
then the task found gone) over a two-chunk stream, against a store in
which the task id is absent. -/
theorem upload_loop_spec_witness :
    ((file_downloader [.runningNow, .gone] [[1], [2]] []).2.2 = .aborted →
      (file_downloader [.runningNow, .gone] [[1], [2]] []).1 ++
        (file_downloader [.runningNow, .gone] [[1], [2]] []).2.1 =
        [[1], [2]]) ∧
    ((∀ ch ∈ [[1], [2]], ch ≠ ([] : List Nat)) →
      (file_downloader [.runningNow, .gone] [[1], [2]] []).2.2 = .completed →
      (file_downloader [.runningNow, .gone] [[1], [2]] []).1 = [[1], [2]] ∧
        (file_downloader [.runningNow, .gone] [[1], [2]] []).2.1 = []) ∧
    (alookup 0 (TTLCache.init : TTLCache Nat Nat).data = none →
      (upload_epilogue (TTLCache.init : TTLCache Nat Nat) 0 7).2.1 = true ∧
      (upload_epilogue (TTLCache.init : TTLCache Nat Nat) 0 7).2.2 = 404) ∧
    alookup 0 ((upload_epilogue (TTLCache.init : TTLCache Nat Nat)
      0 7).1).data = none :=
  upload_loop_spec [.runningNow, .gone] [[1], [2]] TTLCache.init 0 7
    (by unfold TTLCache.WellFormed; decide)
